import Mathlib

/-!
# Verification of the material-interaction (BSDF) stage of a CUDA path tracer

Shallow embedding of `src/interactions.h` over the real numbers: each float
of the source is modelled as a real, `sqrt`, `sin`, `cos` as their exact
real counterparts, and the GLM vector operations (`dot`, `cross`,
`normalize`, `reflect`, `refract`, `clamp`) by their documented formulas on
a 3-component real vector type.  The random engine together with the
`uniform_real_distribution` is modelled as a stream of draws `ℕ → ℝ`:
the k-th call of `u01(rng)` inside a function returns the k-th element.
-/

noncomputable section

open Classical

/-- A 3-component vector of reals, modelling `glm::vec3`. -/
structure Vec3 where
  x : ℝ
  y : ℝ
  z : ℝ

namespace Vec3

@[ext] theorem extensional {a b : Vec3} (hx : a.x = b.x) (hy : a.y = b.y) (hz : a.z = b.z) : a = b := by
  cases a; cases b; simp_all

instance : Add Vec3 := ⟨fun a b => ⟨a.x + b.x, a.y + b.y, a.z + b.z⟩⟩

instance : Sub Vec3 := ⟨fun a b => ⟨a.x - b.x, a.y - b.y, a.z - b.z⟩⟩

instance : Neg Vec3 := ⟨fun a => ⟨-a.x, -a.y, -a.z⟩⟩

/-- Componentwise product, as GLM defines `vec3 * vec3`. -/
instance : Mul Vec3 := ⟨fun a b => ⟨a.x * b.x, a.y * b.y, a.z * b.z⟩⟩

/-- Scalar times vector, as GLM defines `float * vec3`. -/
instance : SMul ℝ Vec3 := ⟨fun r a => ⟨r * a.x, r * a.y, r * a.z⟩⟩

/-- Vector times scalar, as GLM defines `vec3 * float`. -/
instance : HMul Vec3 ℝ Vec3 := ⟨fun a r => ⟨a.x * r, a.y * r, a.z * r⟩⟩

@[simp] theorem add_x (a b : Vec3) : (a + b).x = a.x + b.x := rfl

@[simp] theorem add_y (a b : Vec3) : (a + b).y = a.y + b.y := rfl

@[simp] theorem add_z (a b : Vec3) : (a + b).z = a.z + b.z := rfl

@[simp] theorem sub_x (a b : Vec3) : (a - b).x = a.x - b.x := rfl

@[simp] theorem sub_y (a b : Vec3) : (a - b).y = a.y - b.y := rfl

@[simp] theorem sub_z (a b : Vec3) : (a - b).z = a.z - b.z := rfl

@[simp] theorem neg_x (a : Vec3) : (-a).x = -a.x := rfl

@[simp] theorem neg_y (a : Vec3) : (-a).y = -a.y := rfl

@[simp] theorem neg_z (a : Vec3) : (-a).z = -a.z := rfl

@[simp] theorem mul_x (a b : Vec3) : (a * b).x = a.x * b.x := rfl

@[simp] theorem mul_y (a b : Vec3) : (a * b).y = a.y * b.y := rfl

@[simp] theorem mul_z (a b : Vec3) : (a * b).z = a.z * b.z := rfl

@[simp] theorem smul_x (r : ℝ) (a : Vec3) : (r • a).x = r * a.x := rfl

@[simp] theorem smul_y (r : ℝ) (a : Vec3) : (r • a).y = r * a.y := rfl

@[simp] theorem smul_z (r : ℝ) (a : Vec3) : (r • a).z = r * a.z := rfl

@[simp] theorem hmul_x (a : Vec3) (r : ℝ) : (a * r).x = a.x * r := rfl

@[simp] theorem hmul_y (a : Vec3) (r : ℝ) : (a * r).y = a.y * r := rfl

@[simp] theorem hmul_z (a : Vec3) (r : ℝ) : (a * r).z = a.z * r := rfl

/-- The operation `glm::dot` on 3-vectors. -/
def dot (a b : Vec3) : ℝ := a.x * b.x + a.y * b.y + a.z * b.z

/-- The operation `glm::cross`. -/
def cross (a b : Vec3) : Vec3 :=
  ⟨a.y * b.z - a.z * b.y, a.z * b.x - a.x * b.z, a.x * b.y - a.y * b.x⟩

/-- The operation `glm::length`. -/
def length (v : Vec3) : ℝ := Real.sqrt (dot v v)

/-- The operation `glm::normalize`: `v * inversesqrt(dot(v, v))`. -/
def normalize (v : Vec3) : Vec3 := (1 / length v) • v

/-- The operation `glm::reflect(I, N) = I - 2 * dot(N, I) * N`. -/
def reflect (I N : Vec3) : Vec3 := I - (2 * dot N I) • N

/-- The operation `glm::refract(I, N, eta)`: with `k = 1 - eta^2 * (1 - dot(N,I)^2)`,
returns the zero vector when `k < 0` and
`eta * I - (eta * dot(N, I) + sqrt(k)) * N` otherwise. -/
def refract (I N : Vec3) (eta : ℝ) : Vec3 :=
  let d := dot N I
  let k := 1 - eta * eta * (1 - d * d)
  if k < 0 then ⟨0, 0, 0⟩
  else eta • I - (eta * d + Real.sqrt k) • N

end Vec3

/-- The operation `glm::clamp(x, lo, hi) = min(max(x, lo), hi)`. -/
def clamp (x lo hi : ℝ) : ℝ := min (max x lo) hi

/-- The constant `SQRT_OF_ONE_THIRD` from the tracer's utilities. -/
def SQRT_OF_ONE_THIRD : ℝ := Real.sqrt (1 / 3)

/-- The constant `TWO_PI` from the tracer's utilities. -/
def TWO_PI : ℝ := 2 * Real.pi

/-- A ray: origin and direction (`Ray` of `sceneStructs.h`, fields as used
by `interactions.h`). -/
structure Ray where
  origin : Vec3
  direction : Vec3

/-- Modelled from the spec: `PathSegment` is declared in `sceneStructs.h`,
which is not among the visible sources.  Fields follow the spec's data
model and the uses in `interactions.h`: `ray`, `color` (the spec's
`throughput`), `pixelIndex`, `remainingBounces`, and `dead` (the spec's
`terminated` flag). -/
structure PathSegment where
  ray : Ray
  color : Vec3
  pixelIndex : ℤ
  remainingBounces : ℤ
  dead : Bool

/-- The specular part of a material: its color (exponent unused by
`interactions.h`). -/
structure SpecularMat where
  color : Vec3

/-- Modelled from the spec: `Material` is declared in `sceneStructs.h`,
which is not among the visible sources.  Fields follow the spec's data
model and the uses in `interactions.h`; the reflective/refractive flags are
booleans ("flag set" in the spec). -/
structure Material where
  color : Vec3
  specular : SpecularMat
  hasReflective : Bool
  hasRefractive : Bool
  indexOfRefraction : ℝ
  emittance : ℝ

/-- The reference-axis choice inside `calculateRandomDirectionInHemisphere`
(`directionNotNormal`): `(1,0,0)` if `|normal.x| < sqrt(1/3)`, else
`(0,1,0)` if `|normal.y| < sqrt(1/3)`, else `(0,0,1)`. -/
def directionNotNormal (normal : Vec3) : Vec3 :=
  if |normal.x| < SQRT_OF_ONE_THIRD then ⟨1, 0, 0⟩
  else if |normal.y| < SQRT_OF_ONE_THIRD then ⟨0, 1, 0⟩
  else ⟨0, 0, 1⟩

/-- The function `calculateRandomDirectionInHemisphere` of `interactions.h`: a
cosine-weighted random direction about `normal`.  The engine's two
uniform draws are `rng 0` and `rng 1`. -/
def calculateRandomDirectionInHemisphere (normal : Vec3) (rng : ℕ → ℝ) : Vec3 :=
  let up := Real.sqrt (rng 0)
  let over := Real.sqrt (1 - up * up)
  let around := rng 1 * TWO_PI
  let perpendicularDirection1 := Vec3.normalize (Vec3.cross normal (directionNotNormal normal))
  let perpendicularDirection2 := Vec3.normalize (Vec3.cross normal perpendicularDirection1)
  up • normal + (Real.cos around * over) • perpendicularDirection1
    + (Real.sin around * over) • perpendicularDirection2

/-- The function `dielectric` of `interactions.h`: unpolarized Fresnel reflectance with
total-internal-reflection detection. -/
def dielectric (cosThetaI etaI etaT : ℝ) : ℝ :=
  let c := clamp cosThetaI (-1) 1
  let sinThetaI := Real.sqrt (max 0 (1 - c * c))
  let sinThetaT := etaI / etaT * sinThetaI
  if sinThetaT ≥ 1 then 1
  else
    let cosThetaT := Real.sqrt (max 0 (1 - sinThetaT * sinThetaT))
    let Rparl := ((etaT * c) - (etaI * cosThetaT)) / ((etaT * c) + (etaI * cosThetaT))
    let Rperp := ((etaI * c) - (etaT * cosThetaT)) / ((etaI * c) + (etaT * cosThetaT))
    (Rparl * Rparl + Rperp * Rperp) / 2

/-- The refractive case of `scatterRay` (`m.hasRefractive`, lines 104-126 of
`interactions.h`), extracted as the pair `(wi, updated color)`.  `wo` is the
normalized incoming direction, exactly as computed at the top of
`scatterRay`; the branch draws nothing from the random engine (its local
`u01` distribution is constructed but never sampled). -/
def refractiveBranch (pathSegment : PathSegment) (normal : Vec3) (m : Material) : Vec3 × Vec3 :=
  let wo := Vec3.normalize pathSegment.ray.direction
  let cosThetaI := Vec3.dot normal wo
  let wi0 :=
    if cosThetaI < 0 then Vec3.refract wo normal (1 / m.indexOfRefraction)
    else Vec3.refract wo (-normal) m.indexOfRefraction
  let f :=
    if cosThetaI < 0 then dielectric (-cosThetaI) 1 m.indexOfRefraction
    else dielectric cosThetaI m.indexOfRefraction 1
  if f > 1 then
    (Vec3.reflect wo normal,
      pathSegment.color * (m.specular.color * max 1 (f / |cosThetaI|)))
  else
    (wi0, pathSegment.color * (m.specular.color * max 1 ((1 - f) / |cosThetaI|)))

/-- The function `scatterRay` of `interactions.h`, as a pure function on the mutated
`PathSegment`.  The diffuse branch consumes the draws `rng 0` and `rng 1`. -/
def scatterRay (pathSegment : PathSegment) (intersect normal : Vec3) (m : Material)
    (rng : ℕ → ℝ) (depth : ℤ) : PathSegment :=
  let wo := Vec3.normalize pathSegment.ray.direction
  if m.emittance > 0 then
    { pathSegment with dead := true }
  else
    let wiColor : Vec3 × Vec3 :=
      if m.hasRefractive then
        refractiveBranch pathSegment normal m
      else if m.hasReflective then
        (Vec3.reflect wo normal, pathSegment.color * m.specular.color)
      else
        (calculateRandomDirectionInHemisphere normal rng, pathSegment.color)
    { pathSegment with
        color := wiColor.2
        ray := { direction := Vec3.normalize wiColor.1,
                 origin := intersect + wiColor.1 * (0.0001 : ℝ) } }

/-! ## Basic vector algebra -/

namespace Vec3

theorem dot_comm (a b : Vec3) : dot a b = dot b a := by unfold dot; ring

theorem dot_self_nonneg (v : Vec3) : 0 ≤ dot v v := by
  unfold dot; nlinarith [sq_nonneg v.x, sq_nonneg v.y, sq_nonneg v.z]

theorem dot_self_eq_zero_iff (v : Vec3) : dot v v = 0 ↔ v = ⟨0, 0, 0⟩ := by
  constructor
  · intro h
    unfold dot at h
    ext <;> dsimp only <;> nlinarith [sq_nonneg v.x, sq_nonneg v.y, sq_nonneg v.z]
  · intro h
    subst h
    norm_num [dot]

theorem dot_self_pos_of_ne (v : Vec3) (h : v ≠ ⟨0, 0, 0⟩) : 0 < dot v v :=
  lt_of_le_of_ne (dot_self_nonneg v) fun h0 => h ((dot_self_eq_zero_iff v).mp h0.symm)

theorem dot_add_left (a b c : Vec3) : dot (a + b) c = dot a c + dot b c := by
  unfold dot; dsimp only [add_x, add_y, add_z]; ring

theorem dot_add_right (a b c : Vec3) : dot a (b + c) = dot a b + dot a c := by
  unfold dot; dsimp only [add_x, add_y, add_z]; ring

theorem dot_smul_left (r : ℝ) (a b : Vec3) : dot (r • a) b = r * dot a b := by
  unfold dot; dsimp only [smul_x, smul_y, smul_z]; ring

theorem dot_smul_right (r : ℝ) (a b : Vec3) : dot a (r • b) = r * dot a b := by
  unfold dot; dsimp only [smul_x, smul_y, smul_z]; ring

theorem dot_neg_left (a b : Vec3) : dot (-a) b = -dot a b := by
  unfold dot; dsimp only [neg_x, neg_y, neg_z]; ring

theorem dot_cross_self_left (a b : Vec3) : dot a (cross a b) = 0 := by
  unfold dot cross; dsimp only; ring

theorem dot_cross_self_right (a b : Vec3) : dot b (cross a b) = 0 := by
  unfold dot cross; dsimp only; ring

/-- Lagrange identity for the squared norm of a cross product. -/
theorem cross_dot_cross (a b : Vec3) :
    dot (cross a b) (cross a b) = dot a a * dot b b - dot a b * dot a b := by
  unfold dot cross; dsimp only; ring

theorem length_mul_self (v : Vec3) : length v * length v = dot v v :=
  Real.mul_self_sqrt (dot_self_nonneg v)

theorem length_nonneg (v : Vec3) : 0 ≤ length v := Real.sqrt_nonneg _

theorem length_pos_of_dot_pos (v : Vec3) (h : 0 < dot v v) : 0 < length v :=
  Real.sqrt_pos.mpr h

theorem dot_normalize_self (v : Vec3) (h : 0 < dot v v) :
    dot (normalize v) (normalize v) = 1 := by
  unfold normalize
  rw [dot_smul_left, dot_smul_right]
  have hl : 0 < length v := length_pos_of_dot_pos v h
  have hm := length_mul_self v
  field_simp
  nlinarith [hm, hl]

theorem length_normalize (v : Vec3) (h : 0 < dot v v) : length (normalize v) = 1 := by
  rw [length, dot_normalize_self v h, Real.sqrt_one]

theorem dot_normalize_left (v w : Vec3) : dot (normalize v) w = (1 / length v) * dot v w := by
  unfold normalize
  rw [dot_smul_left]

theorem normalize_of_dot_one (v : Vec3) (h : dot v v = 1) : normalize v = v := by
  unfold normalize length
  rw [h, Real.sqrt_one]
  ext <;> simp

theorem dot_sub_left (a b c : Vec3) : dot (a - b) c = dot a c - dot b c := by
  unfold dot; dsimp only [sub_x, sub_y, sub_z]; ring

theorem dot_sub_right (a b c : Vec3) : dot a (b - c) = dot a b - dot a c := by
  unfold dot; dsimp only [sub_x, sub_y, sub_z]; ring

theorem reflect_dot_self (I N : Vec3) (hN : dot N N = 1) :
    dot (reflect I N) (reflect I N) = dot I I := by
  unfold reflect
  simp only [dot_sub_left, dot_sub_right, dot_smul_left, dot_smul_right]
  rw [dot_comm I N, hN]
  ring

end Vec3

/-! ## Bounds for the Fresnel evaluator -/

theorem half_mul_self_nonneg (a b : ℝ) : 0 ≤ (a * a + b * b) / 2 := by
  nlinarith [mul_self_nonneg a, mul_self_nonneg b]

theorem div_mul_self_le_one (a b : ℝ) (ha : 0 ≤ a) (hb : 0 < b) :
    (a - b) / (a + b) * ((a - b) / (a + b)) ≤ 1 := by
  have hab : 0 < a + b := by linarith
  rw [div_mul_div_comm, div_le_one (by positivity)]
  nlinarith

/-- The branch structure of `dielectric`: when Snell's law yields
`sinThetaT ≥ 1`, the evaluator returns `1` exactly. -/
theorem dielectric_tir (cosThetaI etaI etaT : ℝ)
    (h : 1 ≤ etaI / etaT *
      Real.sqrt (max 0 (1 - clamp cosThetaI (-1) 1 * clamp cosThetaI (-1) 1))) :
    dielectric cosThetaI etaI etaT = 1 := by
  unfold dielectric
  dsimp only
  split
  · rfl
  · rename_i hlt
    exact absurd (ge_iff_le.mpr h) hlt

theorem dielectric_nonneg (cosThetaI etaI etaT : ℝ) : 0 ≤ dielectric cosThetaI etaI etaT := by
  unfold dielectric
  dsimp only
  split
  · norm_num
  · exact half_mul_self_nonneg _ _

theorem clamp_neg_one_one_nonneg (x : ℝ) (hx : 0 ≤ x) : 0 ≤ clamp x (-1) 1 := by
  unfold clamp
  rw [max_eq_left (by linarith : (-1 : ℝ) ≤ x)]
  exact le_min hx (by norm_num)

theorem half_sum_le_one (R1 R2 : ℝ) (h1 : R1 * R1 ≤ 1) (h2 : R2 * R2 ≤ 1) :
    (R1 * R1 + R2 * R2) / 2 ≤ 1 := by linarith

theorem fresnel_sum_le_one (c cT etaI etaT : ℝ) (hc : 0 ≤ c) (hcT : 0 < cT)
    (hI : 0 < etaI) (hT : 0 < etaT) :
    ((etaT * c - etaI * cT) / (etaT * c + etaI * cT) *
        ((etaT * c - etaI * cT) / (etaT * c + etaI * cT)) +
      (etaI * c - etaT * cT) / (etaI * c + etaT * cT) *
        ((etaI * c - etaT * cT) / (etaI * c + etaT * cT))) / 2 ≤ 1 :=
  half_sum_le_one _ _
    (div_mul_self_le_one (etaT * c) (etaI * cT) (mul_nonneg hT.le hc) (mul_pos hI hcT))
    (div_mul_self_le_one (etaI * c) (etaT * cT) (mul_nonneg hI.le hc) (mul_pos hT hcT))

theorem dielectric_le_one (cosThetaI etaI etaT : ℝ) (hc : 0 ≤ cosThetaI)
    (hI : 0 < etaI) (hT : 0 < etaT) : dielectric cosThetaI etaI etaT ≤ 1 := by
  have hc0 : 0 ≤ clamp cosThetaI (-1) 1 := clamp_neg_one_one_nonneg cosThetaI hc
  unfold dielectric
  dsimp only
  split
  · exact le_refl 1
  · rename_i hlt
    rw [ge_iff_le, not_le] at hlt
    generalize hgc : clamp cosThetaI (-1) 1 = c at hc0 hlt ⊢
    have hsT0 : 0 ≤ etaI / etaT * Real.sqrt (max 0 (1 - c * c)) :=
      mul_nonneg (div_nonneg hI.le hT.le) (Real.sqrt_nonneg _)
    generalize hgs : etaI / etaT * Real.sqrt (max 0 (1 - c * c)) = sT at hsT0 hlt ⊢
    have hcT : 0 < Real.sqrt (max 0 (1 - sT * sT)) :=
      Real.sqrt_pos.mpr (lt_max_of_lt_right (by nlinarith))
    generalize hgT : Real.sqrt (max 0 (1 - sT * sT)) = cT at hcT ⊢
    exact fresnel_sum_le_one c cT etaI etaT hc0 hcT hI hT

/-! ## The hemisphere sampler's orthonormal frame -/

theorem Vec3.dot_normalize_right (v w : Vec3) :
    Vec3.dot w (Vec3.normalize v) = (1 / Vec3.length v) * Vec3.dot w v := by
  unfold Vec3.normalize
  rw [Vec3.dot_smul_right]

theorem directionNotNormal_dot_self (n : Vec3) :
    Vec3.dot (directionNotNormal n) (directionNotNormal n) = 1 := by
  unfold directionNotNormal
  split_ifs <;> norm_num [Vec3.dot]

theorem dot_directionNotNormal_sq_le (n : Vec3) (hn : Vec3.dot n n = 1) :
    Vec3.dot n (directionNotNormal n) * Vec3.dot n (directionNotNormal n) ≤ 1 / 3 := by
  have hs : SQRT_OF_ONE_THIRD * SQRT_OF_ONE_THIRD = 1 / 3 := Real.mul_self_sqrt (by norm_num)
  have hs0 : 0 ≤ SQRT_OF_ONE_THIRD := Real.sqrt_nonneg _
  unfold Vec3.dot at hn
  unfold directionNotNormal
  split_ifs with h1 h2
  · have hx := mul_self_lt_mul_self (abs_nonneg n.x) h1
    rw [abs_mul_abs_self] at hx
    simp only [Vec3.dot]
    nlinarith
  · have hy := mul_self_lt_mul_self (abs_nonneg n.y) h2
    rw [abs_mul_abs_self] at hy
    simp only [Vec3.dot]
    nlinarith
  · rw [not_lt] at h1 h2
    have hx := mul_self_le_mul_self hs0 h1
    have hy := mul_self_le_mul_self hs0 h2
    rw [abs_mul_abs_self] at hx hy
    simp only [Vec3.dot]
    nlinarith

theorem cross_directionNotNormal_pos (n : Vec3) (hn : Vec3.dot n n = 1) :
    0 < Vec3.dot (Vec3.cross n (directionNotNormal n)) (Vec3.cross n (directionNotNormal n)) := by
  rw [Vec3.cross_dot_cross, hn, directionNotNormal_dot_self]
  nlinarith [dot_directionNotNormal_sq_le n hn]

theorem perp1_dot_self (n : Vec3) (hn : Vec3.dot n n = 1) :
    Vec3.dot (Vec3.normalize (Vec3.cross n (directionNotNormal n)))
      (Vec3.normalize (Vec3.cross n (directionNotNormal n))) = 1 :=
  Vec3.dot_normalize_self _ (cross_directionNotNormal_pos n hn)

theorem perp1_dot_normal (n : Vec3) :
    Vec3.dot n (Vec3.normalize (Vec3.cross n (directionNotNormal n))) = 0 := by
  rw [Vec3.dot_normalize_right, Vec3.dot_cross_self_left, mul_zero]

theorem cross_perp1_dot_self (n : Vec3) (hn : Vec3.dot n n = 1) :
    Vec3.dot (Vec3.cross n (Vec3.normalize (Vec3.cross n (directionNotNormal n))))
      (Vec3.cross n (Vec3.normalize (Vec3.cross n (directionNotNormal n)))) = 1 := by
  rw [Vec3.cross_dot_cross, hn, perp1_dot_self n hn, perp1_dot_normal n]
  ring

theorem perp2_dot_self (n : Vec3) (hn : Vec3.dot n n = 1) :
    Vec3.dot
      (Vec3.normalize (Vec3.cross n (Vec3.normalize (Vec3.cross n (directionNotNormal n)))))
      (Vec3.normalize (Vec3.cross n (Vec3.normalize (Vec3.cross n (directionNotNormal n))))) = 1 :=
  Vec3.dot_normalize_self _ (by rw [cross_perp1_dot_self n hn]; norm_num)

theorem perp2_dot_normal (n : Vec3) :
    Vec3.dot n
      (Vec3.normalize (Vec3.cross n (Vec3.normalize (Vec3.cross n (directionNotNormal n))))) = 0 := by
  rw [Vec3.dot_normalize_right, Vec3.dot_cross_self_left, mul_zero]

theorem perp2_dot_perp1 (n : Vec3) :
    Vec3.dot (Vec3.normalize (Vec3.cross n (directionNotNormal n)))
      (Vec3.normalize (Vec3.cross n (Vec3.normalize (Vec3.cross n (directionNotNormal n))))) = 0 := by
  rw [Vec3.dot_normalize_right, Vec3.dot_cross_self_right, mul_zero]

/-! ## The hemisphere sample's geometry -/

theorem orthonormal_dot_normal (n p1 p2 : Vec3) (a b c : ℝ) (h11 : Vec3.dot n n = 1)
    (h21 : Vec3.dot p1 n = 0) (h31 : Vec3.dot p2 n = 0) :
    Vec3.dot (a • n + b • p1 + c • p2) n = a := by
  simp only [Vec3.dot_add_left, Vec3.dot_smul_left, h11, h21, h31]
  ring

theorem orthonormal_dot_self (n p1 p2 : Vec3) (a b c : ℝ) (h11 : Vec3.dot n n = 1)
    (h22 : Vec3.dot p1 p1 = 1) (h33 : Vec3.dot p2 p2 = 1) (h12 : Vec3.dot n p1 = 0)
    (h13 : Vec3.dot n p2 = 0) (h23 : Vec3.dot p1 p2 = 0) :
    Vec3.dot (a • n + b • p1 + c • p2) (a • n + b • p1 + c • p2) =
      a * a + b * b + c * c := by
  have h21 : Vec3.dot p1 n = 0 := by rw [Vec3.dot_comm]; exact h12
  have h31 : Vec3.dot p2 n = 0 := by rw [Vec3.dot_comm]; exact h13
  have h32 : Vec3.dot p2 p1 = 0 := by rw [Vec3.dot_comm]; exact h23
  simp only [Vec3.dot_add_left, Vec3.dot_add_right, Vec3.dot_smul_left, Vec3.dot_smul_right,
    h11, h22, h33, h12, h13, h23, h21, h31, h32]
  ring

theorem hemisphere_dot_normal (n : Vec3) (rng : ℕ → ℝ) (hn : Vec3.dot n n = 1) :
    Vec3.dot (calculateRandomDirectionInHemisphere n rng) n = Real.sqrt (rng 0) := by
  have h21 := perp1_dot_normal n
  have h31 := perp2_dot_normal n
  rw [Vec3.dot_comm n _] at h21
  rw [Vec3.dot_comm n _] at h31
  unfold calculateRandomDirectionInHemisphere
  dsimp only
  exact orthonormal_dot_normal n _ _ _ _ _ hn h21 h31

theorem hemisphere_dot_self (n : Vec3) (rng : ℕ → ℝ) (hn : Vec3.dot n n = 1) :
    Vec3.dot (calculateRandomDirectionInHemisphere n rng) (calculateRandomDirectionInHemisphere n rng) =
      Real.sqrt (rng 0) * Real.sqrt (rng 0) +
        Real.sqrt (1 - Real.sqrt (rng 0) * Real.sqrt (rng 0)) *
          Real.sqrt (1 - Real.sqrt (rng 0) * Real.sqrt (rng 0)) := by
  unfold calculateRandomDirectionInHemisphere
  dsimp only
  rw [orthonormal_dot_self n _ _ _ _ _ hn (perp1_dot_self n hn) (perp2_dot_self n hn)
    (perp1_dot_normal n) (perp2_dot_normal n) (perp2_dot_perp1 n)]
  have hpyth := Real.sin_sq_add_cos_sq (rng 1 * TWO_PI)
  nlinarith [hpyth]

theorem hemisphere_dot_self_pos (n : Vec3) (rng : ℕ → ℝ) (hn : Vec3.dot n n = 1) :
    0 < Vec3.dot (calculateRandomDirectionInHemisphere n rng)
      (calculateRandomDirectionInHemisphere n rng) := by
  rw [hemisphere_dot_self n rng hn]
  rcases eq_or_lt_of_le (Real.sqrt_nonneg (rng 0)) with h | h
  · rw [← h]
    norm_num
  · nlinarith [Real.sqrt_nonneg (1 - Real.sqrt (rng 0) * Real.sqrt (rng 0))]

theorem hemisphere_ne_zero (n : Vec3) (rng : ℕ → ℝ) (hn : Vec3.dot n n = 1) :
    calculateRandomDirectionInHemisphere n rng ≠ ⟨0, 0, 0⟩ := by
  intro h0
  have h := hemisphere_dot_self_pos n rng hn
  rw [h0] at h
  norm_num [Vec3.dot] at h

/-! ## Branch reductions for `scatterRay` -/

theorem scatterRay_emissive (ps : PathSegment) (intersect normal : Vec3) (m : Material)
    (rng : ℕ → ℝ) (depth : ℤ) (h : m.emittance > 0) :
    scatterRay ps intersect normal m rng depth = { ps with dead := true } := by
  unfold scatterRay
  dsimp only
  rw [if_pos h]

theorem scatterRay_refractive (ps : PathSegment) (intersect normal : Vec3) (m : Material)
    (rng : ℕ → ℝ) (depth : ℤ) (h1 : ¬ m.emittance > 0) (h2 : m.hasRefractive = true) :
    scatterRay ps intersect normal m rng depth =
      { ps with
          color := (refractiveBranch ps normal m).2
          ray := { direction := Vec3.normalize (refractiveBranch ps normal m).1,
                   origin := intersect + (refractiveBranch ps normal m).1 * (0.0001 : ℝ) } } := by
  unfold scatterRay
  dsimp only
  rw [if_neg h1]
  simp only [h2, if_true]

theorem scatterRay_reflective (ps : PathSegment) (intersect normal : Vec3) (m : Material)
    (rng : ℕ → ℝ) (depth : ℤ) (h1 : ¬ m.emittance > 0) (h2 : m.hasRefractive = false)
    (h3 : m.hasReflective = true) :
    scatterRay ps intersect normal m rng depth =
      { ps with
          color := ps.color * m.specular.color
          ray := { direction :=
                     Vec3.normalize (Vec3.reflect (Vec3.normalize ps.ray.direction) normal),
                   origin := intersect +
                     Vec3.reflect (Vec3.normalize ps.ray.direction) normal * (0.0001 : ℝ) } } := by
  unfold scatterRay
  dsimp only
  rw [if_neg h1]
  simp [h2, h3]

theorem scatterRay_diffuse (ps : PathSegment) (intersect normal : Vec3) (m : Material)
    (rng : ℕ → ℝ) (depth : ℤ) (h1 : ¬ m.emittance > 0) (h2 : m.hasRefractive = false)
    (h3 : m.hasReflective = false) :
    scatterRay ps intersect normal m rng depth =
      { ps with
          color := ps.color
          ray := { direction :=
                     Vec3.normalize (calculateRandomDirectionInHemisphere normal rng),
                   origin := intersect +
                     calculateRandomDirectionInHemisphere normal rng * (0.0001 : ℝ) } } := by
  unfold scatterRay
  dsimp only
  rw [if_neg h1]
  simp [h2, h3]

/-! ## Claims -/

/-- C3 (amended): for every `cosThetaI ≥ 0` and indices `etaI > 0`,
`etaT > 0`, the Fresnel evaluator `dielectric` returns a scalar in the
closed interval `[0, 1]`. -/
theorem claim_C3 (cosThetaI etaI etaT : ℝ) (hc : 0 ≤ cosThetaI)
    (hI : 0 < etaI) (hT : 0 < etaT) :
    dielectric cosThetaI etaI etaT ∈ Set.Icc (0 : ℝ) 1 :=
  ⟨dielectric_nonneg cosThetaI etaI etaT, dielectric_le_one cosThetaI etaI etaT hc hI hT⟩

theorem claim_C3_witness :
    (0 : ℝ) ≤ 1 / 2 ∧ (0 : ℝ) < 1 ∧ (0 : ℝ) < 3 / 2 ∧
      dielectric (1 / 2) 1 (3 / 2) ∈ Set.Icc (0 : ℝ) 1 :=
  ⟨by norm_num, by norm_num, by norm_num,
    claim_C3 (1 / 2) 1 (3 / 2) (by norm_num) (by norm_num) (by norm_num)⟩

/-- C3, counterexample to the claim as stated: at `cosThetaI = -1`,
`etaI = 1 > 0`, `etaT = 2 > 0` the evaluator returns `9`, outside
`[0, 1]`. -/
theorem claim_C3_counterexample :
    (0 : ℝ) < 1 ∧ (0 : ℝ) < 2 ∧ dielectric (-1) 1 2 ∉ Set.Icc (0 : ℝ) 1 := by
  have h : dielectric (-1) 1 2 = 9 := by
    unfold dielectric
    dsimp only
    rw [show clamp (-1 : ℝ) (-1) 1 = -1 by norm_num [clamp]]
    rw [show max (0 : ℝ) (1 - -1 * -1) = 0 by norm_num, Real.sqrt_zero]
    rw [show (1 : ℝ) / 2 * 0 = 0 by norm_num]
    rw [if_neg (by norm_num : ¬ (0 : ℝ) ≥ 1)]
    rw [show max (0 : ℝ) (1 - 0 * 0) = 1 by norm_num, Real.sqrt_one]
    norm_num
  refine ⟨by norm_num, by norm_num, ?_⟩
  rw [h, Set.mem_Icc]
  norm_num

/-- C4: whenever Snell's law gives `sinThetaT ≥ 1`, `dielectric` returns
`1` exactly; in particular `dielectric (0.3) (1.5) 1 = 1` exactly. -/
theorem claim_C4 :
    (∀ cosThetaI etaI etaT : ℝ,
        1 ≤ etaI / etaT *
          Real.sqrt (max 0 (1 - clamp cosThetaI (-1) 1 * clamp cosThetaI (-1) 1)) →
        dielectric cosThetaI etaI etaT = 1) ∧
    dielectric (3 / 10) (3 / 2) 1 = 1 := by
  constructor
  · exact fun cosThetaI etaI etaT h => dielectric_tir cosThetaI etaI etaT h
  · apply dielectric_tir
    have h1 : clamp (3 / 10 : ℝ) (-1) 1 = 3 / 10 := by norm_num [clamp]
    rw [h1, show max (0 : ℝ) (1 - 3 / 10 * (3 / 10)) = 91 / 100 by norm_num]
    have h2 : (2 / 3 : ℝ) ≤ Real.sqrt (91 / 100) := by
      rw [show (2 / 3 : ℝ) = Real.sqrt ((2 / 3) ^ 2) from (Real.sqrt_sq (by norm_num)).symm]
      exact Real.sqrt_le_sqrt (by norm_num)
    nlinarith

theorem claim_C4_witness :
    (1 ≤ (3 / 2 : ℝ) / 1 * Real.sqrt (max 0 (1 - clamp 0 (-1) 1 * clamp 0 (-1) 1))) ∧
      dielectric 0 (3 / 2) 1 = 1 := by
  have h : (1 : ℝ) ≤ 3 / 2 / 1 * Real.sqrt (max 0 (1 - clamp 0 (-1) 1 * clamp 0 (-1) 1)) := by
    norm_num [clamp]
  exact ⟨h, claim_C4.1 0 (3 / 2) 1 h⟩

/-- C6: for every material with `emittance > 0`, a scatter call sets the
terminated (`dead`) flag and leaves the ray (origin and direction)
unchanged, for every normal, incoming ray, and random stream. -/
theorem claim_C6 (ps : PathSegment) (intersect normal : Vec3) (m : Material)
    (rng : ℕ → ℝ) (depth : ℤ) (h : m.emittance > 0) :
    (scatterRay ps intersect normal m rng depth).dead = true ∧
    (scatterRay ps intersect normal m rng depth).ray = ps.ray := by
  rw [scatterRay_emissive ps intersect normal m rng depth h]
  exact ⟨rfl, rfl⟩

theorem claim_C6_witness :
    ((⟨⟨1, 1, 1⟩, ⟨⟨1, 1, 1⟩⟩, false, false, 1, 5⟩ : Material).emittance > 0) ∧
    (scatterRay ⟨⟨⟨0, 0, 0⟩, ⟨0, 0, -1⟩⟩, ⟨1, 1, 1⟩, 0, 0, false⟩ ⟨0, 0, 0⟩ ⟨0, 0, 1⟩
      ⟨⟨1, 1, 1⟩, ⟨⟨1, 1, 1⟩⟩, false, false, 1, 5⟩ (fun _ => 1 / 2) 0).dead = true ∧
    (scatterRay ⟨⟨⟨0, 0, 0⟩, ⟨0, 0, -1⟩⟩, ⟨1, 1, 1⟩, 0, 0, false⟩ ⟨0, 0, 0⟩ ⟨0, 0, 1⟩
      ⟨⟨1, 1, 1⟩, ⟨⟨1, 1, 1⟩⟩, false, false, 1, 5⟩ (fun _ => 1 / 2) 0).ray =
      (⟨⟨⟨0, 0, 0⟩, ⟨0, 0, -1⟩⟩, ⟨1, 1, 1⟩, 0, 0, false⟩ : PathSegment).ray :=
  ⟨by norm_num,
    claim_C6 ⟨⟨⟨0, 0, 0⟩, ⟨0, 0, -1⟩⟩, ⟨1, 1, 1⟩, 0, 0, false⟩ ⟨0, 0, 0⟩ ⟨0, 0, 1⟩
      ⟨⟨1, 1, 1⟩, ⟨⟨1, 1, 1⟩⟩, false, false, 1, 5⟩ (fun _ => 1 / 2) 0 (by norm_num)⟩

/-- C7: for every material with `hasReflective` set, `hasRefractive` unset
and `emittance ≤ 0`, a scatter call multiplies the throughput componentwise
by exactly `specular.color` and sets the direction to the normalized
geometric reflection of the normalized incoming direction about the
normal. -/
theorem claim_C7 (ps : PathSegment) (intersect normal : Vec3) (m : Material)
    (rng : ℕ → ℝ) (depth : ℤ) (h1 : m.emittance ≤ 0) (h2 : m.hasRefractive = false)
    (h3 : m.hasReflective = true) :
    (scatterRay ps intersect normal m rng depth).color = ps.color * m.specular.color ∧
    (scatterRay ps intersect normal m rng depth).ray.direction =
      Vec3.normalize (Vec3.reflect (Vec3.normalize ps.ray.direction) normal) := by
  rw [scatterRay_reflective ps intersect normal m rng depth (not_lt.mpr h1) h2 h3]
  exact ⟨rfl, rfl⟩

theorem claim_C7_witness :
    ((⟨⟨1, 1, 1⟩, ⟨⟨4 / 5, 4 / 5, 4 / 5⟩⟩, true, false, 1, 0⟩ : Material).emittance ≤ 0) ∧
    (scatterRay ⟨⟨⟨0, 0, 0⟩, ⟨0, 0, -1⟩⟩, ⟨1, 1, 1⟩, 0, 0, false⟩ ⟨0, 0, 0⟩ ⟨0, 0, 1⟩
      ⟨⟨1, 1, 1⟩, ⟨⟨4 / 5, 4 / 5, 4 / 5⟩⟩, true, false, 1, 0⟩ (fun _ => 1 / 2) 0).color =
      (⟨⟨⟨0, 0, 0⟩, ⟨0, 0, -1⟩⟩, ⟨1, 1, 1⟩, 0, 0, false⟩ : PathSegment).color *
        (⟨⟨1, 1, 1⟩, ⟨⟨4 / 5, 4 / 5, 4 / 5⟩⟩, true, false, 1, 0⟩ : Material).specular.color ∧
    (scatterRay ⟨⟨⟨0, 0, 0⟩, ⟨0, 0, -1⟩⟩, ⟨1, 1, 1⟩, 0, 0, false⟩ ⟨0, 0, 0⟩ ⟨0, 0, 1⟩
      ⟨⟨1, 1, 1⟩, ⟨⟨4 / 5, 4 / 5, 4 / 5⟩⟩, true, false, 1, 0⟩ (fun _ => 1 / 2) 0).ray.direction =
      Vec3.normalize (Vec3.reflect (Vec3.normalize ⟨0, 0, -1⟩) ⟨0, 0, 1⟩) :=
  ⟨by norm_num,
    claim_C7 ⟨⟨⟨0, 0, 0⟩, ⟨0, 0, -1⟩⟩, ⟨1, 1, 1⟩, 0, 0, false⟩ ⟨0, 0, 0⟩ ⟨0, 0, 1⟩
      ⟨⟨1, 1, 1⟩, ⟨⟨4 / 5, 4 / 5, 4 / 5⟩⟩, true, false, 1, 0⟩ (fun _ => 1 / 2) 0
      (by norm_num) rfl rfl⟩

/-- C8: for every diffuse material (`emittance ≤ 0`, both flags unset), a
scatter call leaves the throughput exactly unchanged — the diffuse color is
never applied — and draws the direction from the hemisphere sampler. -/
theorem claim_C8 (ps : PathSegment) (intersect normal : Vec3) (m : Material)
    (rng : ℕ → ℝ) (depth : ℤ) (h1 : m.emittance ≤ 0) (h2 : m.hasRefractive = false)
    (h3 : m.hasReflective = false) :
    (scatterRay ps intersect normal m rng depth).color = ps.color ∧
    (scatterRay ps intersect normal m rng depth).ray.direction =
      Vec3.normalize (calculateRandomDirectionInHemisphere normal rng) := by
  rw [scatterRay_diffuse ps intersect normal m rng depth (not_lt.mpr h1) h2 h3]
  exact ⟨rfl, rfl⟩

theorem claim_C8_witness :
    ((⟨⟨1 / 2, 1 / 2, 1 / 2⟩, ⟨⟨1, 1, 1⟩⟩, false, false, 1, 0⟩ : Material).emittance ≤ 0) ∧
    (scatterRay ⟨⟨⟨0, 0, 0⟩, ⟨0, 0, -1⟩⟩, ⟨1, 1, 1⟩, 0, 0, false⟩ ⟨0, 0, 0⟩ ⟨0, 0, 1⟩
      ⟨⟨1 / 2, 1 / 2, 1 / 2⟩, ⟨⟨1, 1, 1⟩⟩, false, false, 1, 0⟩ (fun _ => 1 / 2) 0).color =
      (⟨⟨⟨0, 0, 0⟩, ⟨0, 0, -1⟩⟩, ⟨1, 1, 1⟩, 0, 0, false⟩ : PathSegment).color ∧
    (scatterRay ⟨⟨⟨0, 0, 0⟩, ⟨0, 0, -1⟩⟩, ⟨1, 1, 1⟩, 0, 0, false⟩ ⟨0, 0, 0⟩ ⟨0, 0, 1⟩
      ⟨⟨1 / 2, 1 / 2, 1 / 2⟩, ⟨⟨1, 1, 1⟩⟩, false, false, 1, 0⟩ (fun _ => 1 / 2) 0).ray.direction =
      Vec3.normalize (calculateRandomDirectionInHemisphere ⟨0, 0, 1⟩ (fun _ => 1 / 2)) :=
  ⟨by norm_num,
    claim_C8 ⟨⟨⟨0, 0, 0⟩, ⟨0, 0, -1⟩⟩, ⟨1, 1, 1⟩, 0, 0, false⟩ ⟨0, 0, 0⟩ ⟨0, 0, 1⟩
      ⟨⟨1 / 2, 1 / 2, 1 / 2⟩, ⟨⟨1, 1, 1⟩⟩, false, false, 1, 0⟩ (fun _ => 1 / 2) 0
      (by norm_num) rfl rfl⟩

/-- The refractive branch with the `f > 1` reflect-fallback removed: the
refracted `wi0` and the transmission weight are always used.  Stated for
comparison with `refractiveBranch` (claim C5). -/
def refractiveBranchNoFallback (pathSegment : PathSegment) (normal : Vec3) (m : Material) :
    Vec3 × Vec3 :=
  let wo := Vec3.normalize pathSegment.ray.direction
  let cosThetaI := Vec3.dot normal wo
  let wi0 :=
    if cosThetaI < 0 then Vec3.refract wo normal (1 / m.indexOfRefraction)
    else Vec3.refract wo (-normal) m.indexOfRefraction
  let f :=
    if cosThetaI < 0 then dielectric (-cosThetaI) 1 m.indexOfRefraction
    else dielectric cosThetaI m.indexOfRefraction 1
  (wi0, pathSegment.color * (m.specular.color * max 1 ((1 - f) / |cosThetaI|)))

/-- C5: under `scatterRay`'s call pattern `dielectric` always receives a
non-negative first argument, so (for a positive index of refraction) the
returned `f` is at most `1`; hence the `f > 1` reflect-fallback of the
refractive case is unreachable and the refracted `wi0` — the zero vector
under total internal reflection — is always kept. -/
theorem claim_C5 (ps : PathSegment) (normal : Vec3) (m : Material)
    (hior : 0 < m.indexOfRefraction) :
    (if Vec3.dot normal (Vec3.normalize ps.ray.direction) < 0
       then dielectric (-(Vec3.dot normal (Vec3.normalize ps.ray.direction))) 1
         m.indexOfRefraction
       else dielectric (Vec3.dot normal (Vec3.normalize ps.ray.direction))
         m.indexOfRefraction 1) ≤ 1 ∧
    refractiveBranch ps normal m = refractiveBranchNoFallback ps normal m := by
  have hf : (if Vec3.dot normal (Vec3.normalize ps.ray.direction) < 0
       then dielectric (-(Vec3.dot normal (Vec3.normalize ps.ray.direction))) 1
         m.indexOfRefraction
       else dielectric (Vec3.dot normal (Vec3.normalize ps.ray.direction))
         m.indexOfRefraction 1) ≤ 1 := by
    split
    · rename_i hneg
      exact dielectric_le_one _ 1 m.indexOfRefraction (by linarith) (by norm_num) hior
    · rename_i hpos
      rw [not_lt] at hpos
      exact dielectric_le_one _ m.indexOfRefraction 1 hpos hior (by norm_num)
  refine ⟨hf, ?_⟩
  unfold refractiveBranch refractiveBranchNoFallback
  dsimp only
  rw [if_neg (not_lt.mpr hf)]

theorem claim_C5_witness :
    (0 < (⟨⟨1, 1, 1⟩, ⟨⟨1, 1, 1⟩⟩, false, true, 3 / 2, 0⟩ : Material).indexOfRefraction) ∧
    refractiveBranch ⟨⟨⟨0, 0, 0⟩, ⟨0, 0, -1⟩⟩, ⟨1, 1, 1⟩, 0, 0, false⟩ ⟨0, 0, 1⟩
        ⟨⟨1, 1, 1⟩, ⟨⟨1, 1, 1⟩⟩, false, true, 3 / 2, 0⟩ =
      refractiveBranchNoFallback ⟨⟨⟨0, 0, 0⟩, ⟨0, 0, -1⟩⟩, ⟨1, 1, 1⟩, 0, 0, false⟩ ⟨0, 0, 1⟩
        ⟨⟨1, 1, 1⟩, ⟨⟨1, 1, 1⟩⟩, false, true, 3 / 2, 0⟩ :=
  ⟨by norm_num,
    (claim_C5 ⟨⟨⟨0, 0, 0⟩, ⟨0, 0, -1⟩⟩, ⟨1, 1, 1⟩, 0, 0, false⟩ ⟨0, 0, 1⟩
      ⟨⟨1, 1, 1⟩, ⟨⟨1, 1, 1⟩⟩, false, true, 3 / 2, 0⟩ (by norm_num)).2⟩

/-! ## Concrete evaluation at a total-internal-reflection input

Incoming direction `(4/5, 0, 3/5)`, unit normal `(0,0,1)`: the hit exits
the medium (`cosThetaI = 3/5 > 0`) and for any index of refraction with
`ior * 4/5 ≥ 1` Snell's law gives `sinThetaT ≥ 1` (total internal
reflection). -/

theorem refract_exit_tir (ior : ℝ) (h : 1 - ior * ior * (16 / 25) < 0) :
    Vec3.refract ⟨4 / 5, 0, 3 / 5⟩ (-(⟨0, 0, 1⟩ : Vec3)) ior = ⟨0, 0, 0⟩ := by
  have hd : Vec3.dot (-(⟨0, 0, 1⟩ : Vec3)) ⟨4 / 5, 0, 3 / 5⟩ = -(3 / 5) := by
    norm_num [Vec3.dot]
  have hcond : (1 : ℝ) - ior * ior *
      (1 - Vec3.dot (-(⟨0, 0, 1⟩ : Vec3)) ⟨4 / 5, 0, 3 / 5⟩ *
        Vec3.dot (-(⟨0, 0, 1⟩ : Vec3)) ⟨4 / 5, 0, 3 / 5⟩) < 0 := by
    rw [hd]
    nlinarith [h]
  unfold Vec3.refract
  dsimp only
  rw [if_pos hcond]

theorem dielectric_tir_exit (ior : ℝ) (h : 1 ≤ ior * (4 / 5)) :
    dielectric (3 / 5) ior 1 = 1 := by
  apply dielectric_tir
  rw [show clamp (3 / 5 : ℝ) (-1) 1 = 3 / 5 by norm_num [clamp]]
  rw [show max (0 : ℝ) (1 - 3 / 5 * (3 / 5)) = 16 / 25 by norm_num]
  rw [show Real.sqrt (16 / 25 : ℝ) = 4 / 5 by
    rw [show (16 / 25 : ℝ) = (4 / 5) ^ 2 by norm_num]
    exact Real.sqrt_sq (by norm_num)]
  rw [div_one]
  exact h

theorem scatter_tir_eval (ior : ℝ) (h1 : 1 ≤ ior * (4 / 5)) (h2 : 1 - ior * ior * (16 / 25) < 0) :
    scatterRay ⟨⟨⟨0, 0, 0⟩, ⟨4 / 5, 0, 3 / 5⟩⟩, ⟨1, 1, 1⟩, 0, 0, false⟩ ⟨0, 0, 0⟩ ⟨0, 0, 1⟩
        ⟨⟨1, 1, 1⟩, ⟨⟨1, 1, 1⟩⟩, false, true, ior, 0⟩ (fun _ => 1 / 2) 0 =
      ⟨⟨⟨0, 0, 0⟩, ⟨0, 0, 0⟩⟩, ⟨1, 1, 1⟩, 0, 0, false⟩ := by
  have hwo : Vec3.normalize ⟨4 / 5, 0, 3 / 5⟩ = (⟨4 / 5, 0, 3 / 5⟩ : Vec3) :=
    Vec3.normalize_of_dot_one _ (by norm_num [Vec3.dot])
  have hcos : Vec3.dot ⟨0, 0, 1⟩ (⟨4 / 5, 0, 3 / 5⟩ : Vec3) = 3 / 5 := by norm_num [Vec3.dot]
  have hrb : refractiveBranch ⟨⟨⟨0, 0, 0⟩, ⟨4 / 5, 0, 3 / 5⟩⟩, ⟨1, 1, 1⟩, 0, 0, false⟩ ⟨0, 0, 1⟩
      ⟨⟨1, 1, 1⟩, ⟨⟨1, 1, 1⟩⟩, false, true, ior, 0⟩ = (⟨0, 0, 0⟩, ⟨1, 1, 1⟩) := by
    unfold refractiveBranch
    dsimp only
    rw [hwo, hcos]
    rw [if_neg (by norm_num : ¬ (3 / 5 : ℝ) < 0), if_neg (by norm_num : ¬ (3 / 5 : ℝ) < 0)]
    rw [dielectric_tir_exit ior h1]
    rw [if_neg (by norm_num : ¬ (1 : ℝ) > 1)]
    rw [refract_exit_tir ior h2]
    rw [show ((1 : ℝ) - 1) / |(3 / 5 : ℝ)| = 0 by norm_num,
      max_eq_left (by norm_num : (0 : ℝ) ≤ 1)]
    simp only [Prod.mk.injEq]
    exact ⟨trivial, by ext <;> norm_num⟩
  rw [scatterRay_refractive _ _ _ _ _ _ (by show ¬ (0 : ℝ) > 0; norm_num) rfl]
  rw [hrb]
  have hnz : Vec3.normalize ⟨0, 0, 0⟩ = (⟨0, 0, 0⟩ : Vec3) := by
    ext <;> simp [Vec3.normalize, Vec3.length, Vec3.dot]
  have horig : (⟨0, 0, 0⟩ : Vec3) + (⟨0, 0, 0⟩ : Vec3) * (0.0001 : ℝ) = ⟨0, 0, 0⟩ := by
    ext <;> norm_num
  rw [hnz]
  dsimp only
  rw [horig]

/-- C1: at a total-internal-reflection hit (exiting the medium with
`sinThetaT = 1.5 * 4/5 = 1.2 ≥ 1`), `dielectric` returns exactly `1`, so
the `f > 1` fallback never fires: the scattered direction is the
(normalized) zero vector kept from `refract`, not the reflection
`(4/5, 0, -3/5)` the claim requires, and the throughput is multiplied by
`specularColor * max(1, (1-f)/|cosThetaI|) = (1,1,1)`, not
`specularColor * max(1, f/|cosThetaI|) = (5/3, 5/3, 5/3)`. -/
theorem claim_C1 :
    (scatterRay ⟨⟨⟨0, 0, 0⟩, ⟨4 / 5, 0, 3 / 5⟩⟩, ⟨1, 1, 1⟩, 0, 0, false⟩ ⟨0, 0, 0⟩ ⟨0, 0, 1⟩
        ⟨⟨1, 1, 1⟩, ⟨⟨1, 1, 1⟩⟩, false, true, 3 / 2, 0⟩ (fun _ => 1 / 2) 0).ray.direction =
      ⟨0, 0, 0⟩ ∧
    (scatterRay ⟨⟨⟨0, 0, 0⟩, ⟨4 / 5, 0, 3 / 5⟩⟩, ⟨1, 1, 1⟩, 0, 0, false⟩ ⟨0, 0, 0⟩ ⟨0, 0, 1⟩
        ⟨⟨1, 1, 1⟩, ⟨⟨1, 1, 1⟩⟩, false, true, 3 / 2, 0⟩ (fun _ => 1 / 2) 0).color = ⟨1, 1, 1⟩ ∧
    Vec3.reflect (Vec3.normalize ⟨4 / 5, 0, 3 / 5⟩) ⟨0, 0, 1⟩ = ⟨4 / 5, 0, -(3 / 5)⟩ ∧
    (⟨0, 0, 0⟩ : Vec3) ≠ ⟨4 / 5, 0, -(3 / 5)⟩ := by
  have he := scatter_tir_eval (3 / 2) (by norm_num) (by norm_num)
  refine ⟨by rw [he], by rw [he], ?_, ?_⟩
  · rw [Vec3.normalize_of_dot_one _ (by norm_num [Vec3.dot])]
    unfold Vec3.reflect
    ext <;> norm_num [Vec3.dot]
  · intro hco
    have hx := congrArg Vec3.x hco
    norm_num at hx

/-- C2, counterexample to the claim as stated: at a refractive hit at a
beyond-critical angle (same configuration as C1 with index 2), the exit
direction is the zero vector, whose length is `0 ≠ 1`. -/
theorem claim_C2_counterexample :
    Vec3.length (scatterRay ⟨⟨⟨0, 0, 0⟩, ⟨4 / 5, 0, 3 / 5⟩⟩, ⟨1, 1, 1⟩, 0, 0, false⟩
        ⟨0, 0, 0⟩ ⟨0, 0, 1⟩ ⟨⟨1, 1, 1⟩, ⟨⟨1, 1, 1⟩⟩, false, true, 2, 0⟩
        (fun _ => 1 / 2) 0).ray.direction = 0 ∧
    (0 : ℝ) ≠ 1 := by
  have he := scatter_tir_eval 2 (by norm_num) (by norm_num)
  constructor
  · rw [he]
    show Vec3.length ⟨0, 0, 0⟩ = 0
    simp [Vec3.length, Vec3.dot]
  · norm_num

theorem Vec3.dot_self_of_length_one (v : Vec3) (h : Vec3.length v = 1) : Vec3.dot v v = 1 := by
  rw [Vec3.length] at h
  exact Real.sqrt_eq_one.mp h

/-- C2 (amended): for a non-emissive scatter call with a unit hit normal
and a nonzero incoming direction, the exit `ray.direction` is unit length
in every branch, except that in the refractive case the selected `wi` must
be nonzero — at or beyond the critical angle `refract` returns the zero
vector, the `f > 1` fallback does not fire, and the exit direction is the
zero vector instead (see the counterexample). -/
theorem claim_C2 (ps : PathSegment) (intersect normal : Vec3) (m : Material)
    (rng : ℕ → ℝ) (depth : ℤ) (hem : m.emittance ≤ 0) (hn : Vec3.length normal = 1)
    (hd : ps.ray.direction ≠ ⟨0, 0, 0⟩)
    (hrefr : m.hasRefractive = true → (refractiveBranch ps normal m).1 ≠ ⟨0, 0, 0⟩) :
    Vec3.length (scatterRay ps intersect normal m rng depth).ray.direction = 1 := by
  have hnn : Vec3.dot normal normal = 1 := Vec3.dot_self_of_length_one normal hn
  have hem2 : ¬ m.emittance > 0 := not_lt.mpr hem
  have hwo : 0 < Vec3.dot (Vec3.normalize ps.ray.direction) (Vec3.normalize ps.ray.direction) := by
    rw [Vec3.dot_normalize_self _ (Vec3.dot_self_pos_of_ne _ hd)]
    norm_num
  rcases Bool.eq_false_or_eq_true m.hasRefractive with hr | hr
  · rw [scatterRay_refractive ps intersect normal m rng depth hem2 hr]
    exact Vec3.length_normalize _ (Vec3.dot_self_pos_of_ne _ (hrefr hr))
  · rcases Bool.eq_false_or_eq_true m.hasReflective with hl | hl
    · rw [scatterRay_reflective ps intersect normal m rng depth hem2 hr hl]
      apply Vec3.length_normalize
      rw [Vec3.reflect_dot_self _ _ hnn]
      exact hwo
    · rw [scatterRay_diffuse ps intersect normal m rng depth hem2 hr hl]
      exact Vec3.length_normalize _ (hemisphere_dot_self_pos normal rng hnn)

theorem claim_C2_witness :
    ((⟨⟨1, 1, 1⟩, ⟨⟨1, 1, 1⟩⟩, false, false, 1, 0⟩ : Material).emittance ≤ 0) ∧
    Vec3.length (⟨0, 0, 1⟩ : Vec3) = 1 ∧
    ((⟨⟨⟨0, 0, 0⟩, ⟨0, 0, -1⟩⟩, ⟨1, 1, 1⟩, 0, 0, false⟩ : PathSegment).ray.direction ≠
      ⟨0, 0, 0⟩) ∧
    Vec3.length (scatterRay ⟨⟨⟨0, 0, 0⟩, ⟨0, 0, -1⟩⟩, ⟨1, 1, 1⟩, 0, 0, false⟩ ⟨0, 0, 0⟩
      ⟨0, 0, 1⟩ ⟨⟨1, 1, 1⟩, ⟨⟨1, 1, 1⟩⟩, false, false, 1, 0⟩
      (fun _ => 1 / 2) 0).ray.direction = 1 := by
  have hn : Vec3.length (⟨0, 0, 1⟩ : Vec3) = 1 := by
    rw [Vec3.length]
    norm_num [Vec3.dot]
  have hd : ((⟨⟨⟨0, 0, 0⟩, ⟨0, 0, -1⟩⟩, ⟨1, 1, 1⟩, 0, 0, false⟩ : PathSegment).ray.direction ≠
      (⟨0, 0, 0⟩ : Vec3)) := by
    show (⟨0, 0, -1⟩ : Vec3) ≠ ⟨0, 0, 0⟩
    intro h
    have hz := congrArg Vec3.z h
    norm_num at hz
  exact ⟨by norm_num, hn, hd,
    claim_C2 ⟨⟨⟨0, 0, 0⟩, ⟨0, 0, -1⟩⟩, ⟨1, 1, 1⟩, 0, 0, false⟩ ⟨0, 0, 0⟩ ⟨0, 0, 1⟩
      ⟨⟨1, 1, 1⟩, ⟨⟨1, 1, 1⟩⟩, false, false, 1, 0⟩ (fun _ => 1 / 2) 0
      (by norm_num) hn hd (fun h => Bool.noConfusion h)⟩

/-- C9: for every unit normal and uniform draws `u1 = rng 0`, `u2 = rng 1`
in `[0, 1)`, the hemisphere sampler returns a unit-length direction `d`
with `dot d n = sqrt u1 ≥ 0` (so `d` lies in the upper hemisphere). -/
theorem claim_C9 (n : Vec3) (rng : ℕ → ℝ) (hn : Vec3.length n = 1)
    (h0 : 0 ≤ rng 0) (h1 : rng 0 < 1) (h2 : 0 ≤ rng 1) (h3 : rng 1 < 1) :
    Vec3.length (calculateRandomDirectionInHemisphere n rng) = 1 ∧
    Vec3.dot (calculateRandomDirectionInHemisphere n rng) n = Real.sqrt (rng 0) ∧
    0 ≤ Vec3.dot (calculateRandomDirectionInHemisphere n rng) n := by
  have hnn := Vec3.dot_self_of_length_one n hn
  have hdn := hemisphere_dot_normal n rng hnn
  have hdd := hemisphere_dot_self n rng hnn
  have hss : Real.sqrt (rng 0) * Real.sqrt (rng 0) = rng 0 := Real.mul_self_sqrt h0
  have hoo : Real.sqrt (1 - rng 0) * Real.sqrt (1 - rng 0) = 1 - rng 0 :=
    Real.mul_self_sqrt (by linarith)
  refine ⟨?_, hdn, by rw [hdn]; exact Real.sqrt_nonneg _⟩
  rw [Vec3.length, hdd, hss, hoo, show rng 0 + (1 - rng 0) = 1 by ring, Real.sqrt_one]

theorem claim_C9_witness :
    Vec3.length (⟨0, 0, 1⟩ : Vec3) = 1 ∧ (0 : ℝ) ≤ 1 / 2 ∧ (1 / 2 : ℝ) < 1 ∧
    Vec3.length (calculateRandomDirectionInHemisphere ⟨0, 0, 1⟩ (fun _ => 1 / 2)) = 1 ∧
    Vec3.dot (calculateRandomDirectionInHemisphere ⟨0, 0, 1⟩ (fun _ => 1 / 2)) ⟨0, 0, 1⟩ =
      Real.sqrt (1 / 2) ∧
    0 ≤ Vec3.dot (calculateRandomDirectionInHemisphere ⟨0, 0, 1⟩ (fun _ => 1 / 2)) ⟨0, 0, 1⟩ := by
  have hn : Vec3.length (⟨0, 0, 1⟩ : Vec3) = 1 := by
    rw [Vec3.length]
    norm_num [Vec3.dot]
  have h := claim_C9 ⟨0, 0, 1⟩ (fun _ => 1 / 2) hn (by norm_num) (by norm_num)
    (by norm_num) (by norm_num)
  exact ⟨hn, by norm_num, by norm_num, h.1, h.2.1, h.2.2⟩

/-- C10: for every unit normal, the reference axis chosen by the three-way
test satisfies `|dot n e| ≤ sqrt(1/3)`, so `cross n e` is nonzero and the
two normalized perpendicular basis vectors are unit (well-defined). -/
theorem claim_C10 (n : Vec3) (hn : Vec3.length n = 1) :
    |Vec3.dot n (directionNotNormal n)| ≤ SQRT_OF_ONE_THIRD ∧
    Vec3.cross n (directionNotNormal n) ≠ ⟨0, 0, 0⟩ ∧
    Vec3.length (Vec3.normalize (Vec3.cross n (directionNotNormal n))) = 1 ∧
    Vec3.length (Vec3.normalize (Vec3.cross n
      (Vec3.normalize (Vec3.cross n (directionNotNormal n))))) = 1 := by
  have hnn := Vec3.dot_self_of_length_one n hn
  have hsq := dot_directionNotNormal_sq_le n hnn
  refine ⟨?_, ?_, Vec3.length_normalize _ (cross_directionNotNormal_pos n hnn), ?_⟩
  · rw [show |Vec3.dot n (directionNotNormal n)| =
        Real.sqrt (Vec3.dot n (directionNotNormal n) * Vec3.dot n (directionNotNormal n)) from
      (Real.sqrt_mul_self_eq_abs _).symm]
    unfold SQRT_OF_ONE_THIRD
    exact Real.sqrt_le_sqrt hsq
  · intro h0
    have hp := cross_directionNotNormal_pos n hnn
    rw [h0] at hp
    norm_num [Vec3.dot] at hp
  · apply Vec3.length_normalize
    rw [cross_perp1_dot_self n hnn]
    norm_num

theorem claim_C10_witness :
    Vec3.length (⟨0, 0, 1⟩ : Vec3) = 1 ∧
    |Vec3.dot ⟨0, 0, 1⟩ (directionNotNormal ⟨0, 0, 1⟩)| ≤ SQRT_OF_ONE_THIRD ∧
    Vec3.cross ⟨0, 0, 1⟩ (directionNotNormal ⟨0, 0, 1⟩) ≠ ⟨0, 0, 0⟩ := by
  have hn : Vec3.length (⟨0, 0, 1⟩ : Vec3) = 1 := by
    rw [Vec3.length]
    norm_num [Vec3.dot]
  have h := claim_C10 ⟨0, 0, 1⟩ hn
  exact ⟨hn, h.1, h.2.1⟩
